import Mathlib

/-!
Shallow embedding of the agent response loop of the bolt-js assistant
template, centred on `callLlm` (src/agent — streaming LLM call with the
`roll_dice` tool) and `rollDice` (src/agent/tools/dice.js).

Modelling choices:
* `Math.floor(Math.random() * sides)` is modelled by an oracle
  `rand : Nat → Nat` giving the floored draw for the i-th die; theorems
  that need the range fact `rand i < sides` take it as a hypothesis
  (it holds for the source because `Math.random()` is in `[0, 1)`).
* A raw JSON argument string is modelled by `RawArgs`: either a string
  that `JSON.parse` rejects (`malformed`) or one that parses to a
  `DiceArgs` object (`wellFormed`).  `DiceArgs` has the two optional
  integer fields of the declared parameter schema; an absent field is
  `none` (JS `undefined`), which triggers the destructuring defaults.
* `JSON.stringify(result)` in the function_call_output entry is modelled
  by carrying the structured `RollResult` itself.
* The OpenAI event stream of one `openai.responses.create` call is a
  list of `StreamEvent`s; the backend is a function from the current
  prompts to that list.  Recursion of `callLlm` is bounded by fuel: the
  source has no recursion bound, so a run that still wants to recurse
  when the fuel is gone ends in `StepResult.noFuel`.
* A thrown JS exception (only `JSON.parse` can throw here) becomes
  `StepResult.err` / the `.error` case of the stream fold, carrying the
  prompts and sink output produced before the throw.
-/

/-- JS `undefined`-aware rendering of an optional integer, as used by a
template literal: `undefined` prints as "undefined". -/
def jsShow : Option Int → String
  | some n => toString n
  | none => "undefined"

/-- The parsed argument object for the dice tool: the two integer fields
of `rollDiceDefinition.parameters`; `none` is an absent field. -/
structure DiceArgs where
  sides : Option Int
  count : Option Int
deriving Repr, DecidableEq

/-- A raw JSON argument payload: either rejected by `JSON.parse` or
parsed to a `DiceArgs` object.  The `String` component is the raw text
(kept because the source re-sends it verbatim in the transcript). -/
inductive RawArgs where
  | malformed (raw : String)
  | wellFormed (raw : String) (args : DiceArgs)
deriving Repr, DecidableEq

/-- Behaviour of `JSON.parse` on a raw payload: throws (models the `SyntaxError`) on
a malformed string, returns the parsed object otherwise. -/
def jsonParse : RawArgs → Except String DiceArgs
  | .malformed _ => .error "SyntaxError: Unexpected token"
  | .wellFormed _ args => .ok args

/-- Total view of a payload's parse result; only meaningful for
well-formed payloads (used to state equations that hold when every
parse in scope is known to succeed). -/
def rawArgsView : RawArgs → DiceArgs
  | .malformed _ => ⟨none, none⟩
  | .wellFormed _ args => args

/-- Whether `JSON.parse` would throw on this payload. -/
def RawArgs.isMalformed : RawArgs → Bool
  | .malformed _ => true
  | .wellFormed _ _ => false

/-- The object returned by `rollDice`: the success shape has `rolls`,
`total`, `description`; the failure shape has `error`, `rolls = []`,
`total = 0`.  Absent fields are `none`. -/
structure RollResult where
  error : Option String
  rolls : List Int
  total : Int
  description : Option String
deriving Repr, DecidableEq

/-- The function `rollDice` from src/agent/tools/dice.js: destructuring defaults
`sides = 6`, `count = 1` for absent fields, the two validation branches,
then `count` draws of `Math.floor(Math.random() * sides) + 1` (the
floored draw for die `i` is `rand i`) summed by `reduce`. -/
def rollDice (rand : Nat → Nat) (args : DiceArgs) : RollResult :=
  let sides := args.sides.getD 6
  let count := args.count.getD 1
  if sides < 2 then
    { error := some "A die must have at least 2 sides", rolls := [], total := 0,
      description := none }
  else if count < 1 then
    { error := some "Must roll at least 1 die", rolls := [], total := 0,
      description := none }
  else
    let rolls := (List.range count.toNat).map (fun i => ((rand i : Int) + 1))
    let total := rolls.foldl (· + ·) 0
    { error := none, rolls := rolls, total := total,
      description := some s!"Rolled a {count}d{sides} to total {total}" }

/-- A completed `function_call` output item of the stream
(`event.item`): `id`, `call_id`, `name`, raw `arguments`. -/
structure ToolCallItem where
  id : String
  call_id : String
  name : String
  arguments : RawArgs
deriving Repr, DecidableEq

/-- One low-level event of the streamed response.  `outputTextDelta`
is a `response.output_text.delta` event carrying `delta`;
`outputItemDoneFunctionCall` is a `response.output_item.done` event
whose item is a `function_call`; `outputItemDoneOther` is an
`output_item.done` with any other item type; `otherEvent` is any event
of a type the loop does not inspect. -/
inductive StreamEvent where
  | outputTextDelta (delta : String)
  | outputItemDoneFunctionCall (item : ToolCallItem)
  | outputItemDoneOther
  | otherEvent
deriving Repr, DecidableEq

/-- One `streamer.append` call: either markdown text or a task_update
chunk `{id, title, status}`. -/
inductive SinkEvent where
  | markdown (text : String)
  | taskUpdate (id : String) (title : String) (status : String)
deriving Repr, DecidableEq

/-- One entry of the `prompts` array: an input message, a pushed
`function_call` entry, or a pushed `function_call_output` entry (whose
`JSON.stringify`-ed output is modelled by the structured result). -/
inductive PromptItem where
  | message (role : String) (content : String)
  | functionCall (id : String) (call_id : String) (name : String) (arguments : RawArgs)
  | functionCallOutput (call_id : String) (output : RollResult)
deriving Repr, DecidableEq

/-- The task title `Rolling a ${args.count}d${args.sides}...` (absent
fields print as `undefined`, as in JS). -/
def rollingTitle (args : DiceArgs) : String :=
  let c := jsShow args.count
  let s := jsShow args.sides
  s!"Rolling a {c}d{s}..."

/-- Local state of the `for await` loop over the stream: the
accumulated `toolCalls` array and the sink output so far. -/
structure StreamAcc where
  toolCalls : List ToolCallItem
  sink : List SinkEvent
deriving Repr, DecidableEq

/-- The body of the `for await (const event of response)` loop for one
event: forward a non-empty text delta (`event.delta` truthiness);
push a completed `function_call` item and, when it is named
`roll_dice`, `JSON.parse` its arguments (which may throw) and emit the
`in_progress` task update. -/
def processEvent (acc : StreamAcc) : StreamEvent → Except (String × StreamAcc) StreamAcc
  | .outputTextDelta d =>
    if d ≠ "" then .ok { acc with sink := acc.sink ++ [.markdown d] }
    else .ok acc
  | .outputItemDoneFunctionCall item =>
    let acc' : StreamAcc := { acc with toolCalls := acc.toolCalls ++ [item] }
    if item.name == "roll_dice" then
      match jsonParse item.arguments with
      | .error msg => .error (msg, acc')
      | .ok args =>
        .ok { acc' with
              sink := acc'.sink ++ [.taskUpdate item.call_id (rollingTitle args) "in_progress"] }
    else .ok acc'
  | .outputItemDoneOther => .ok acc
  | .otherEvent => .ok acc

/-- The whole `for await` loop: fold `processEvent` over the events; a
throw aborts the loop, keeping the state reached so far. -/
def processEvents (acc : StreamAcc) : List StreamEvent → Except (String × StreamAcc) StreamAcc
  | [] => .ok acc
  | e :: rest =>
    match processEvent acc e with
    | .error err => .error err
    | .ok acc' => processEvents acc' rest

/-- Execute one saved tool call (`for (const call of toolCalls)` body):
a call not named `roll_dice` is skipped entirely; a `roll_dice` call has
its arguments parsed (may throw), the `function_call` entry pushed, the
tool run, the `function_call_output` entry pushed, and the final task
update emitted — `error` status with the error text when
`result.error != null`, else `complete` with the description. -/
def executeCall (rand : Nat → Nat) (prompts : List PromptItem) (sink : List SinkEvent)
    (call : ToolCallItem) :
    Except (String × List PromptItem × List SinkEvent) (List PromptItem × List SinkEvent) :=
  if call.name == "roll_dice" then
    match jsonParse call.arguments with
    | .error msg => .error (msg, prompts, sink)
    | .ok args =>
      let prompts₁ := prompts ++
        [.functionCall call.id call.call_id "roll_dice" call.arguments]
      let result := rollDice rand args
      let prompts₂ := prompts₁ ++ [.functionCallOutput call.call_id result]
      match result.error with
      | some e => .ok (prompts₂, sink ++ [.taskUpdate call.call_id e "error"])
      | none =>
        .ok (prompts₂, sink ++ [.taskUpdate call.call_id (result.description.getD "undefined") "complete"])
  else .ok (prompts, sink)

/-- The `for (const call of toolCalls)` loop over the saved calls. -/
def executeCalls (rand : Nat → Nat) (prompts : List PromptItem) (sink : List SinkEvent) :
    List ToolCallItem →
    Except (String × List PromptItem × List SinkEvent) (List PromptItem × List SinkEvent)
  | [] => .ok (prompts, sink)
  | c :: rest =>
    match executeCall rand prompts sink c with
    | .error err => .error err
    | .ok (p', s') => executeCalls rand p' s' rest

/-- Outcome of one `callLlm` invocation: normal return, a thrown
exception (with the prompts and sink output at the throw), or fuel
exhaustion (the model keeps requesting tools past the modelled bound;
`prompts` is then the transcript the next cycle would receive). -/
inductive StepResult where
  | ok (prompts : List PromptItem) (sink : List SinkEvent)
  | err (msg : String) (prompts : List PromptItem) (sink : List SinkEvent)
  | noFuel (prompts : List PromptItem) (sink : List SinkEvent)
deriving Repr, DecidableEq

/-- The transcript component of an outcome. -/
def StepResult.prompts : StepResult → List PromptItem
  | .ok p _ => p
  | .err _ p _ => p
  | .noFuel p _ => p

/-- The sink-output component of an outcome. -/
def StepResult.sink : StepResult → List SinkEvent
  | .ok _ s => s
  | .err _ _ s => s
  | .noFuel _ s => s

/-- Prefix already-emitted sink output onto an outcome. -/
def withSink (s : List SinkEvent) : StepResult → StepResult
  | .ok p s' => .ok p (s ++ s')
  | .err m p s' => .err m p (s ++ s')
  | .noFuel p s' => .noFuel p (s ++ s')

/-- The function `callLlm` from src/agent (llm.js): open a streaming completion for
the current prompts (the backend maps prompts to the event list of that
call), drive the event loop, and if any tool calls were collected
(`toolCalls.length > 0`) execute them and recurse on the extended
prompts.  `fuel` bounds the recursion depth of the model. -/
def callLlm (rand : Nat → Nat) (backend : List PromptItem → List StreamEvent) :
    Nat → List PromptItem → StepResult
  | 0, prompts => .noFuel prompts []
  | fuel + 1, prompts =>
    match processEvents ⟨[], []⟩ (backend prompts) with
    | .error (msg, acc) => .err msg prompts acc.sink
    | .ok acc =>
      if acc.toolCalls.length > 0 then
        match executeCalls rand prompts [] acc.toolCalls with
        | .error (msg, p', s') => .err msg p' (acc.sink ++ s')
        | .ok (p', s') => withSink (acc.sink ++ s') (callLlm rand backend fuel p')
      else .ok prompts acc.sink

/-- The text payloads of the stream's `output_text.delta` events, in
arrival order. -/
def textDeltas (events : List StreamEvent) : List String :=
  events.filterMap fun
    | .outputTextDelta d => some d
    | _ => none

/-- The markdown payloads of the sink output, in order. -/
def markdownTexts (sink : List SinkEvent) : List String :=
  sink.filterMap fun
    | .markdown t => some t
    | _ => none

/-- The completed `function_call` item of an event, if any. -/
def eventItem : StreamEvent → Option ToolCallItem
  | .outputItemDoneFunctionCall item => some item
  | _ => none

/-- The sink output the streaming phase produces for one event,
assuming every `roll_dice` payload in scope parses (the phase throws
otherwise). -/
def phase1Sink : StreamEvent → Option SinkEvent
  | .outputTextDelta d => if d ≠ "" then some (.markdown d) else none
  | .outputItemDoneFunctionCall item =>
    if item.name == "roll_dice" then
      some (.taskUpdate item.call_id (rollingTitle (rawArgsView item.arguments)) "in_progress")
    else none
  | _ => none

/-- The transcript entries the execution phase appends for one saved
call: a `function_call` / `function_call_output` pair for a `roll_dice`
call, nothing for any other name. -/
def execPair (rand : Nat → Nat) (call : ToolCallItem) : List PromptItem :=
  if call.name == "roll_dice" then
    [.functionCall call.id call.call_id "roll_dice" call.arguments,
     .functionCallOutput call.call_id (rollDice rand (rawArgsView call.arguments))]
  else []

/-- The final task update the execution phase emits for one saved call
(none for a call not named `roll_dice`). -/
def execUpdate (rand : Nat → Nat) (call : ToolCallItem) : Option SinkEvent :=
  if call.name == "roll_dice" then
    let result := rollDice rand (rawArgsView call.arguments)
    match result.error with
    | some e => some (.taskUpdate call.call_id e "error")
    | none => some (.taskUpdate call.call_id (result.description.getD "undefined") "complete")
  else none

/-- Count of `function_call_output` entries in a transcript. -/
def countOutputs (prompts : List PromptItem) : Nat :=
  (prompts.filter fun
    | .functionCallOutput _ _ => true
    | _ => false).length

/-- Count of tool-call-completed events in a stream. -/
def countToolCallEvents (events : List StreamEvent) : Nat :=
  (events.filterMap eventItem).length

/-- Concatenation of a list of text fragments (the "full textual
answer" of a stream is `concatAll` of its deltas). -/
def concatAll (l : List String) : String := l.foldr (fun a b => a ++ b) ""

theorem concatAll_filter_nonEmpty (l : List String) :
    concatAll (l.filter (fun d => d ≠ "")) = concatAll l := by
  induction l with
  | nil => rfl
  | cons d l ih =>
    by_cases h : d = ""
    · subst h; simp [concatAll, List.filter] at ih ⊢; exact ih
    · simp only [concatAll, List.filter] at ih ⊢
      simp only [ne_eq, h, not_false_iff, decide_not, decide_eq_true_eq] at ih ⊢
      simp [List.foldr, ih]

theorem processEvent_ok_shape {acc acc₁ : StreamAcc} {e : StreamEvent}
    (h : processEvent acc e = .ok acc₁) :
    acc₁.toolCalls = acc.toolCalls ++ (eventItem e).toList ∧
      acc₁.sink = acc.sink ++ (phase1Sink e).toList := by
  cases e with
  | outputTextDelta d =>
    by_cases hd : d = ""
    · simp only [processEvent, hd, ne_eq, not_true_eq_false, if_false,
        Except.ok.injEq] at h
      subst h; simp [eventItem, phase1Sink, hd]
    · simp only [processEvent, hd, ne_eq, not_false_iff, if_true,
        Except.ok.injEq] at h
      subst h; simp [eventItem, phase1Sink, hd]
  | outputItemDoneFunctionCall item =>
    by_cases hn : item.name = "roll_dice"
    · cases harg : item.arguments with
      | malformed raw => simp [processEvent, hn, jsonParse, harg] at h
      | wellFormed raw args =>
        simp only [processEvent, hn, harg, jsonParse, beq_self_eq_true, if_true,
          Except.ok.injEq] at h
        subst h; simp [eventItem, phase1Sink, hn, harg, rawArgsView]
    · have hb : (item.name == "roll_dice") = false := by simp [hn]
      simp only [processEvent, hb, Bool.false_eq_true, if_false, Except.ok.injEq] at h
      subst h; simp [eventItem, phase1Sink, hb]
  | outputItemDoneOther =>
    simp only [processEvent, Except.ok.injEq] at h
    subst h; simp [eventItem, phase1Sink]
  | otherEvent =>
    simp only [processEvent, Except.ok.injEq] at h
    subst h; simp [eventItem, phase1Sink]

theorem processEvents_ok_shape {events : List StreamEvent} :
    ∀ {acc acc' : StreamAcc}, processEvents acc events = .ok acc' →
      acc'.toolCalls = acc.toolCalls ++ events.filterMap eventItem ∧
        acc'.sink = acc.sink ++ events.filterMap phase1Sink := by
  induction events with
  | nil => intro acc acc' h; simp [processEvents] at h; simp [← h]
  | cons e rest ih =>
    intro acc acc' h
    simp only [processEvents] at h
    cases he : processEvent acc e with
    | error err => rw [he] at h; exact absurd h (by simp)
    | ok acc₁ =>
      rw [he] at h
      obtain ⟨ht, hs⟩ := processEvent_ok_shape he
      obtain ⟨ht', hs'⟩ := ih h
      constructor
      · rw [ht', ht]
        cases hi : eventItem e <;>
          simp [List.filterMap_cons, hi, Option.toList]
      · rw [hs', hs]
        cases hp : phase1Sink e <;>
          simp [List.filterMap_cons, hp, Option.toList]

theorem processEvents_ok_wellFormed {events : List StreamEvent} :
    ∀ {acc acc' : StreamAcc}, processEvents acc events = .ok acc' →
      ∀ item : ToolCallItem, StreamEvent.outputItemDoneFunctionCall item ∈ events →
        item.name = "roll_dice" → item.arguments.isMalformed = false := by
  induction events with
  | nil => intro _ _ _ item hmem; simp at hmem
  | cons e rest ih =>
    intro acc acc' h item hmem hname
    simp only [processEvents] at h
    cases he : processEvent acc e with
    | error err => rw [he] at h; exact absurd h (by simp)
    | ok acc₁ =>
      rw [he] at h
      rcases List.mem_cons.mp hmem with heq | hrest
      · subst heq
        cases harg : item.arguments with
        | wellFormed raw args => simp [RawArgs.isMalformed]
        | malformed raw =>
          exfalso
          simp [processEvent, hname, harg, jsonParse] at he
      · exact ih h item hrest hname

theorem processEvents_of_malformed {events : List StreamEvent} {item : ToolCallItem}
    (hmem : StreamEvent.outputItemDoneFunctionCall item ∈ events)
    (hname : item.name = "roll_dice") (hmal : item.arguments.isMalformed = true)
    (acc : StreamAcc) :
    ∃ err, processEvents acc events = .error err := by
  cases h : processEvents acc events with
  | error err => exact ⟨err, rfl⟩
  | ok acc' =>
    have := processEvents_ok_wellFormed h item hmem hname
    rw [this] at hmal
    exact absurd hmal (by simp)

theorem executeCall_ok_shape (rand : Nat → Nat) (prompts : List PromptItem)
    (sink : List SinkEvent) (call : ToolCallItem)
    (h : call.name = "roll_dice" → call.arguments.isMalformed = false) :
    executeCall rand prompts sink call =
      .ok (prompts ++ execPair rand call, sink ++ (execUpdate rand call).toList) := by
  by_cases hn : call.name = "roll_dice"
  · cases harg : call.arguments with
    | malformed raw =>
      have := h hn
      rw [harg] at this
      exact absurd this (by simp [RawArgs.isMalformed])
    | wellFormed raw args =>
      simp only [executeCall, hn, beq_self_eq_true, if_true, harg, jsonParse]
      cases hres : (rollDice rand args).error with
      | some e =>
        simp [hres, execPair, execUpdate, hn, harg, rawArgsView]
      | none =>
        simp [hres, execPair, execUpdate, hn, harg, rawArgsView]
  · have hb : (call.name == "roll_dice") = false := by simp [hn]
    simp [executeCall, hb, execPair, execUpdate, hn]

theorem executeCalls_ok_shape (rand : Nat → Nat) :
    ∀ (calls : List ToolCallItem) (prompts : List PromptItem) (sink : List SinkEvent),
      (∀ c ∈ calls, c.name = "roll_dice" → c.arguments.isMalformed = false) →
      executeCalls rand prompts sink calls =
        .ok (prompts ++ calls.flatMap (execPair rand),
             sink ++ calls.filterMap (execUpdate rand)) := by
  intro calls
  induction calls with
  | nil => intro prompts sink _; simp [executeCalls]
  | cons c rest ih =>
    intro prompts sink h
    have hc := h c (List.mem_cons_self c rest)
    have hrest : ∀ x ∈ rest, x.name = "roll_dice" → x.arguments.isMalformed = false :=
      fun x hx => h x (List.mem_cons_of_mem c hx)
    simp only [executeCalls, executeCall_ok_shape rand prompts sink c hc]
    rw [ih _ _ hrest]
    rw [List.flatMap_cons, List.filterMap_cons]
    cases hi : execUpdate rand c <;> simp [Option.toList, List.append_assoc]

/-- The transcript component of an execution-phase outcome (on a throw,
the entries pushed before the throw). -/
def execPrompts :
    Except (String × List PromptItem × List SinkEvent) (List PromptItem × List SinkEvent) →
      List PromptItem
  | .ok (p, _) => p
  | .error (_, p, _) => p

theorem executeCall_grows_prompts (rand : Nat → Nat) (prompts : List PromptItem)
    (sink : List SinkEvent) (call : ToolCallItem) :
    prompts <+: execPrompts (executeCall rand prompts sink call) := by
  by_cases hn : call.name = "roll_dice"
  · cases harg : call.arguments with
    | malformed raw =>
      simp [executeCall, hn, harg, jsonParse, execPrompts]
    | wellFormed raw args =>
      simp only [executeCall, hn, beq_self_eq_true, if_true, harg, jsonParse]
      cases hres : (rollDice rand args).error <;>
        simp [hres, execPrompts, List.prefix_append, List.append_assoc]
  · have hb : (call.name == "roll_dice") = false := by simp [hn]
    simp [executeCall, hb, execPrompts]

theorem executeCalls_grows_prompts (rand : Nat → Nat) :
    ∀ (calls : List ToolCallItem) (prompts : List PromptItem) (sink : List SinkEvent),
      prompts <+: execPrompts (executeCalls rand prompts sink calls) := by
  intro calls
  induction calls with
  | nil => intro prompts sink; simp [executeCalls, execPrompts]
  | cons c rest ih =>
    intro prompts sink
    simp only [executeCalls]
    cases he : executeCall rand prompts sink c with
    | error err =>
      have := executeCall_grows_prompts rand prompts sink c
      rw [he] at this
      simpa [execPrompts] using this
    | ok ps =>
      obtain ⟨p', s'⟩ := ps
      have h₁ : prompts <+: p' := by
        have := executeCall_grows_prompts rand prompts sink c
        rw [he] at this
        simpa [execPrompts] using this
      exact h₁.trans (ih p' s')

theorem withSink_prompts (s : List SinkEvent) (r : StepResult) :
    (withSink s r).prompts = r.prompts := by
  cases r <;> rfl

theorem callLlm_prompts_extends (rand : Nat → Nat)
    (backend : List PromptItem → List StreamEvent) :
    ∀ (fuel : Nat) (prompts : List PromptItem),
      prompts <+: (callLlm rand backend fuel prompts).prompts := by
  intro fuel
  induction fuel with
  | zero => intro prompts; simp [callLlm, StepResult.prompts]
  | succ fuel ih =>
    intro prompts
    simp only [callLlm]
    cases hpe : processEvents ⟨[], []⟩ (backend prompts) with
    | error err =>
      obtain ⟨msg, acc⟩ := err
      simp [StepResult.prompts]
    | ok acc =>
      by_cases htc : acc.toolCalls.length > 0
      · simp only [htc, if_true]
        cases hec : executeCalls rand prompts [] acc.toolCalls with
        | error err =>
          obtain ⟨msg, p', s'⟩ := err
          have := executeCalls_grows_prompts rand acc.toolCalls prompts []
          rw [hec] at this
          simpa [execPrompts, StepResult.prompts] using this
        | ok ps =>
          obtain ⟨p', s'⟩ := ps
          have h₁ : prompts <+: p' := by
            have := executeCalls_grows_prompts rand acc.toolCalls prompts []
            rw [hec] at this
            simpa [execPrompts] using this
          rw [withSink_prompts]
          exact h₁.trans (ih p')
      · simp [htc, StepResult.prompts]

deriving instance DecidableEq for Except

theorem foldl_add_eq_sum (l : List Int) : l.foldl (· + ·) 0 = l.sum := by
  induction l with
  | nil => rfl
  | cons a l ih =>
    rw [List.foldl_cons, zero_add, ← add_zero a, List.foldl_assoc, add_zero, ih,
      List.sum_cons]

theorem processEvents_no_calls :
    ∀ (events : List StreamEvent) (acc : StreamAcc),
      (∀ item : ToolCallItem, StreamEvent.outputItemDoneFunctionCall item ∉ events) →
      processEvents acc events =
        .ok ⟨acc.toolCalls,
             acc.sink ++ ((textDeltas events).filter (fun d => d ≠ "")).map SinkEvent.markdown⟩ := by
  intro events
  induction events with
  | nil => intro acc _; simp [processEvents, textDeltas]
  | cons e rest ih =>
    intro acc h
    have hrest : ∀ item : ToolCallItem, StreamEvent.outputItemDoneFunctionCall item ∉ rest :=
      fun item hmem => h item (List.mem_cons_of_mem e hmem)
    cases e with
    | outputTextDelta d =>
      by_cases hd : d = ""
      · simp only [processEvents, processEvent, hd, ne_eq, not_true_eq_false, if_false]
        rw [ih acc hrest]
        simp [textDeltas, List.filterMap_cons, List.filter]
      · simp only [processEvents, processEvent, hd, ne_eq, not_false_iff, if_true]
        rw [ih _ hrest]
        simp only [textDeltas, List.filterMap_cons]
        simp [List.filter, hd, List.append_assoc]
    | outputItemDoneFunctionCall item =>
      exact absurd (List.mem_cons_self _ _) (h item)
    | outputItemDoneOther =>
      simp only [processEvents, processEvent]
      rw [ih acc hrest]
      simp [textDeltas, List.filterMap_cons]
    | otherEvent =>
      simp only [processEvents, processEvent]
      rw [ih acc hrest]
      simp [textDeltas, List.filterMap_cons]

theorem markdownTexts_phase1Sink (events : List StreamEvent) :
    markdownTexts (events.filterMap phase1Sink) =
      (textDeltas events).filter (fun d => d ≠ "") := by
  induction events with
  | nil => rfl
  | cons e rest ih =>
    cases e with
    | outputTextDelta d =>
      by_cases hd : d = ""
      · simp only [phase1Sink, textDeltas, List.filterMap_cons, hd, ne_eq,
          not_true_eq_false, if_false]
        simpa [textDeltas, List.filter, markdownTexts] using ih
      · simp only [phase1Sink, textDeltas, List.filterMap_cons, hd, ne_eq,
          not_false_iff, if_true]
        simp only [markdownTexts, List.filterMap_cons] at ih ⊢
        simp [List.filter, hd]
        simpa [markdownTexts, textDeltas] using ih
    | outputItemDoneFunctionCall item =>
      by_cases hn : item.name = "roll_dice"
      · simp only [phase1Sink, textDeltas, List.filterMap_cons, hn, beq_self_eq_true,
          if_true]
        simp only [markdownTexts, List.filterMap_cons] at ih ⊢
        simpa [textDeltas] using ih
      · have hb : (item.name == "roll_dice") = false := by simp [hn]
        simp only [phase1Sink, textDeltas, List.filterMap_cons, hb,
          Bool.false_eq_true, if_false]
        simpa [textDeltas] using ih
    | outputItemDoneOther => simpa [phase1Sink, textDeltas, List.filterMap_cons] using ih
    | otherEvent => simpa [phase1Sink, textDeltas, List.filterMap_cons] using ih

theorem inProgress_of_toolCall {events : List StreamEvent} {item : ToolCallItem}
    (hmem : item ∈ events.filterMap eventItem) (hname : item.name = "roll_dice") :
    SinkEvent.taskUpdate item.call_id (rollingTitle (rawArgsView item.arguments))
        "in_progress" ∈ events.filterMap phase1Sink := by
  rcases List.mem_filterMap.mp hmem with ⟨e, hmeme, he⟩
  cases e with
  | outputItemDoneFunctionCall item' =>
    simp only [eventItem, Option.some.injEq] at he
    subst he
    refine List.mem_filterMap.mpr ⟨_, hmeme, ?_⟩
    simp [phase1Sink, hname]
  | outputTextDelta d => simp [eventItem] at he
  | outputItemDoneOther => simp [eventItem] at he
  | otherEvent => simp [eventItem] at he

theorem withSink_sink (s : List SinkEvent) (r : StepResult) :
    (withSink s r).sink = s ++ r.sink := by
  cases r <;> rfl

/-- The success-path description string as the spec words it:
"Rolled a \x7bcount\x7dd\x7bsides\x7d to total \x7btotal\x7d". -/
def diceDescription (count sides total : Int) : String :=
  s!"Rolled a {count}d{sides} to total {total}"

/-- C3: for every input with sides ≥ 2 and count ≥ 1 (defaults sides=6,
count=1 when the field is omitted), `rollDice` returns exactly `count`
rolls, each in [1, sides], a `total` equal to their sum, and the
description "Rolled a \x7bcount\x7dd\x7bsides\x7d to total \x7btotal\x7d".
The range hypothesis on `rand` is the fact that
`Math.floor(Math.random() * sides)` lies in `[0, sides)`. -/
theorem c3_rollDice_valid (rand : Nat → Nat) (args : DiceArgs)
    (hsides : 2 ≤ args.sides.getD 6) (hcount : 1 ≤ args.count.getD 1)
    (hrand : ∀ i, (rand i : Int) < args.sides.getD 6) :
    ((rollDice rand args).rolls.length : Int) = args.count.getD 1 ∧
      (∀ x ∈ (rollDice rand args).rolls, 1 ≤ x ∧ x ≤ args.sides.getD 6) ∧
      (rollDice rand args).total = (rollDice rand args).rolls.sum ∧
      (rollDice rand args).description =
        some (diceDescription (args.count.getD 1) (args.sides.getD 6)
          (rollDice rand args).total) ∧
      (rollDice rand args).error = none := by
  have hns : ¬ args.sides.getD 6 < 2 := by omega
  have hnc : ¬ args.count.getD 1 < 1 := by omega
  refine ⟨?_, ?_, ?_, ?_, ?_⟩
  · simp only [rollDice, hns, if_false, hnc]
    simp [Int.toNat_of_nonneg (by omega : (0:Int) ≤ args.count.getD 1)]
  · intro x hx
    simp only [rollDice, hns, if_false, hnc, List.mem_map, List.mem_range] at hx
    obtain ⟨i, -, hi⟩ := hx
    have h0 : (0 : Int) ≤ (rand i : Int) := Int.ofNat_nonneg _
    have h1 := hrand i
    omega
  · simp only [rollDice, hns, if_false, hnc]
    exact foldl_add_eq_sum _
  · simp only [rollDice, hns, if_false, hnc, diceDescription]
  · simp only [rollDice, hns, if_false, hnc]

/-- C3 witness: sides = 6, count = 2, draws all 0. -/
theorem c3_witness :
    ((rollDice (fun _ => 0) ⟨some 6, some 2⟩).rolls.length : Int) = 2 ∧
      (rollDice (fun _ => 0) ⟨some 6, some 2⟩).total =
        (rollDice (fun _ => 0) ⟨some 6, some 2⟩).rolls.sum ∧
      (rollDice (fun _ => 0) ⟨some 6, some 2⟩).description =
        some (diceDescription 2 6 (rollDice (fun _ => 0) ⟨some 6, some 2⟩).total) :=
  have h := c3_rollDice_valid (fun _ => 0) ⟨some 6, some 2⟩ (by decide) (by decide)
    (fun i => by norm_num)
  ⟨h.1, h.2.2.1, h.2.2.2.1⟩

/-- C4: for sides < 2 or count < 1 (after the destructuring defaults),
`rollDice` returns `rolls = []`, `total = 0` and a non-empty error
string: "A die must have at least 2 sides" whenever sides < 2 (this
branch is checked first, so it also wins when both inputs are invalid),
and "Must roll at least 1 die" when sides is valid and count < 1.  The
output does not depend on the randomness oracle, so the error path is
deterministic; no exception is possible (`rollDice` is total). -/
theorem c4_rollDice_invalid (rand rand' : Nat → Nat) (args : DiceArgs)
    (h : args.sides.getD 6 < 2 ∨ args.count.getD 1 < 1) :
    (rollDice rand args).rolls = [] ∧
      (rollDice rand args).total = 0 ∧
      (∃ e, (rollDice rand args).error = some e ∧ e ≠ "") ∧
      (args.sides.getD 6 < 2 →
        (rollDice rand args).error = some "A die must have at least 2 sides") ∧
      (2 ≤ args.sides.getD 6 → args.count.getD 1 < 1 →
        (rollDice rand args).error = some "Must roll at least 1 die") ∧
      rollDice rand args = rollDice rand' args := by
  by_cases hs : args.sides.getD 6 < 2
  · refine ⟨?_, ?_, ⟨"A die must have at least 2 sides", ?_, ?_⟩, ?_, ?_, ?_⟩ <;>
      simp [rollDice, hs]
  · have hc : args.count.getD 1 < 1 := by tauto
    refine ⟨?_, ?_, ⟨"Must roll at least 1 die", ?_, ?_⟩, ?_, ?_, ?_⟩ <;>
      simp [rollDice, hs, hc]

/-- C4 witness: sides = 1 (invalid) with two different oracles. -/
theorem c4_witness :
    (rollDice (fun _ => 0) ⟨some 1, some 3⟩).rolls = [] ∧
      (rollDice (fun _ => 0) ⟨some 1, some 3⟩).error =
        some "A die must have at least 2 sides" ∧
      rollDice (fun _ => 0) ⟨some 1, some 3⟩ = rollDice (fun _ => 5) ⟨some 1, some 3⟩ :=
  have h := c4_rollDice_invalid (fun _ => 0) (fun _ => 5) ⟨some 1, some 3⟩ (by decide)
  ⟨h.1, h.2.2.2.1 (by decide), h.2.2.2.2.2⟩

/-- Backend for the C2 counterexample: a stream with no tool-call
events whose second text delta is the empty string. -/
def bkC2 : List PromptItem → List StreamEvent :=
  fun _ => [.outputTextDelta "hi", .outputTextDelta ""]

/-- C2 counterexample: the claim says every text delta of a
tool-call-free stream is forwarded to the sink, so the sink would show
one markdown append per delta event; on a stream whose second delta is
the empty string the loop forwards only the first (`event.delta` is
falsy for `""`), so the forwarded sequence differs from the
one-append-per-delta sequence the claim predicts. -/
theorem c2_counterexample :
    (callLlm (fun _ => 0) bkC2 1 []).sink = [SinkEvent.markdown "hi"] ∧
      (textDeltas (bkC2 [])).map SinkEvent.markdown =
        [SinkEvent.markdown "hi", SinkEvent.markdown ""] ∧
      (callLlm (fun _ => 0) bkC2 1 []).sink ≠
        (textDeltas (bkC2 [])).map SinkEvent.markdown := by
  decide

/-- C2 amended: if the backend stream for the first call has zero
tool-call-completed events, `callLlm` returns after exactly one cycle
(for every fuel bound, i.e. no recursive call is consumed), the
transcript is unchanged, the sink receives the non-empty text deltas
in arrival order (empty deltas are skipped by the `event.delta`
truthiness test), and the concatenation of the forwarded deltas still
equals the full textual answer of the stream. -/
theorem c2_amended (rand : Nat → Nat) (backend : List PromptItem → List StreamEvent)
    (prompts : List PromptItem) (fuel : Nat)
    (hnc : ∀ item : ToolCallItem,
      StreamEvent.outputItemDoneFunctionCall item ∉ backend prompts) :
    callLlm rand backend (fuel + 1) prompts =
      .ok prompts
        (((textDeltas (backend prompts)).filter (fun d => d ≠ "")).map SinkEvent.markdown) ∧
      concatAll ((textDeltas (backend prompts)).filter (fun d => d ≠ "")) =
        concatAll (textDeltas (backend prompts)) := by
  constructor
  · simp only [callLlm]
    rw [processEvents_no_calls _ _ hnc]
    simp
  · exact concatAll_filter_nonEmpty _

/-- Backend for the C2 witness: two plain text deltas. -/
def bkC2w : List PromptItem → List StreamEvent :=
  fun _ => [.outputTextDelta "a", .outputTextDelta "b"]

/-- C2 witness: a concrete tool-call-free stream at fuel 5. -/
theorem c2_witness :
    callLlm (fun _ => 0) bkC2w 5 [PromptItem.message "user" "hello"] =
      .ok [PromptItem.message "user" "hello"]
        [SinkEvent.markdown "a", SinkEvent.markdown "b"] :=
  have h := (c2_amended (fun _ => 0) bkC2w [PromptItem.message "user" "hello"] 4
    (by intro item hmem; simp [bkC2w] at hmem)).1
  h.trans (by decide)

/-- Events for the C7 counterexample: an empty delta between two
non-empty ones. -/
def evsC7 : List StreamEvent :=
  [.outputTextDelta "x", .outputTextDelta "", .outputTextDelta "y"]

/-- C7 counterexample: the claim maps every output-text-delta event 1:1
to a sink append ("none dropped"); on a stream with an empty delta the
streaming phase forwards two of the three delta events, so the
forwarded texts differ from the stream's delta payloads. -/
theorem c7_counterexample :
    processEvents ⟨[], []⟩ evsC7 =
      .ok ⟨[], [SinkEvent.markdown "x", SinkEvent.markdown "y"]⟩ ∧
      markdownTexts [SinkEvent.markdown "x", SinkEvent.markdown "y"] ≠ textDeltas evsC7 := by
  decide

/-- C7 amended: in a streaming phase that completes, the markdown texts
forwarded to the sink are exactly the non-empty delta payloads of the
stream, one append per event, in arrival order (events with an empty
delta fail the `event.delta` truthiness test and are dropped). -/
theorem c7_amended (events : List StreamEvent) (acc : StreamAcc)
    (h : processEvents ⟨[], []⟩ events = .ok acc) :
    markdownTexts acc.sink = (textDeltas events).filter (fun d => d ≠ "") := by
  obtain ⟨-, hs⟩ := processEvents_ok_shape h
  rw [hs]
  simpa using markdownTexts_phase1Sink events

/-- C7 witness: a concrete two-delta stream. -/
theorem c7_witness :
    markdownTexts
        ((⟨[], [SinkEvent.markdown "x"]⟩ : StreamAcc).sink) =
      (textDeltas [StreamEvent.outputTextDelta "x", StreamEvent.outputTextDelta ""]).filter
        (fun d => d ≠ "") :=
  c7_amended [StreamEvent.outputTextDelta "x", StreamEvent.outputTextDelta ""]
    ⟨[], [SinkEvent.markdown "x"]⟩ (by decide)

/-- C9: the transcript is append-only: the prompts array a `callLlm`
invocation receives is a prefix of the transcript at every later point
— in particular of the transcript passed to each recursive cycle and of
the final one — whatever the backend, the randomness, the recursion
depth, and whether the run returns, throws, or exhausts its fuel.
Every entry present at the start is still present, unchanged and in the
same relative order (the source only ever `push`es onto `prompts`). -/
theorem c9_transcript_append_only (rand : Nat → Nat)
    (backend : List PromptItem → List StreamEvent) (fuel : Nat)
    (prompts : List PromptItem) :
    prompts <+: (callLlm rand backend fuel prompts).prompts :=
  callLlm_prompts_extends rand backend fuel prompts

theorem toolCalls_wellFormed {events : List StreamEvent} {acc : StreamAcc}
    (h : processEvents ⟨[], []⟩ events = .ok acc) :
    ∀ c ∈ acc.toolCalls, c.name = "roll_dice" → c.arguments.isMalformed = false := by
  intro c hc hname
  obtain ⟨ht, -⟩ := processEvents_ok_shape h
  rw [ht] at hc
  simp only [List.nil_append] at hc
  rcases List.mem_filterMap.mp hc with ⟨e, hmem, he⟩
  cases e with
  | outputItemDoneFunctionCall item =>
    simp only [eventItem, Option.some.injEq] at he
    exact processEvents_ok_wellFormed h c (he ▸ hmem) hname
  | outputTextDelta d => simp [eventItem] at he
  | outputItemDoneOther => simp [eventItem] at he
  | otherEvent => simp [eventItem] at he

theorem executeCalls_skip (rand : Nat → Nat) (prompts : List PromptItem)
    (sink : List SinkEvent) (calls : List ToolCallItem)
    (h : ∀ c ∈ calls, c.name ≠ "roll_dice") :
    executeCalls rand prompts sink calls = .ok (prompts, sink) := by
  induction calls with
  | nil => simp [executeCalls]
  | cons c rest ih =>
    have hc : c.name ≠ "roll_dice" := h c (List.mem_cons_self c rest)
    have hb : (c.name == "roll_dice") = false := by simp [hc]
    simp only [executeCalls, executeCall, hb, Bool.false_eq_true, if_false]
    exact ih fun x hx => h x (List.mem_cons_of_mem c hx)

theorem execPair_flatMap_filter (rand : Nat → Nat) (calls : List ToolCallItem) :
    calls.flatMap (execPair rand) =
      (calls.filter (fun c => c.name == "roll_dice")).flatMap
        (fun c => [PromptItem.functionCall c.id c.call_id "roll_dice" c.arguments,
                   PromptItem.functionCallOutput c.call_id
                     (rollDice rand (rawArgsView c.arguments))]) := by
  induction calls with
  | nil => rfl
  | cons c rest ih =>
    by_cases hn : c.name = "roll_dice"
    · have hb : (c.name == "roll_dice") = true := by simp [hn]
      simp [List.flatMap_cons, List.filter, hb, execPair, hn, ih]
    · have hb : (c.name == "roll_dice") = false := by simp [hn]
      simp [List.flatMap_cons, List.filter, hb, execPair, hn, ih]

/-- Whether the invocation ended in a thrown exception. -/
def StepResult.isErr : StepResult → Bool
  | .err _ _ _ => true
  | _ => false

/-- Backend for the C5 counterexample: one completed `roll_dice` call
whose argument payload does not parse. -/
def bkC5 : List PromptItem → List StreamEvent :=
  fun _ => [.outputItemDoneFunctionCall ⟨"i5", "c5", "roll_dice", .malformed "oops"⟩]

/-- C5 counterexample: the claim says a malformed argument payload is
converted to a ToolResult failure "invalid arguments" and never aborts
the loop; on this input `callLlm` ends in a thrown `JSON.parse`
exception, with nothing appended to the transcript and no failure
result produced anywhere. -/
theorem c5_counterexample :
    callLlm (fun _ => 0) bkC5 1 [] = .err "SyntaxError: Unexpected token" [] [] := by
  decide

/-- C5 amended: a completed `roll_dice` call whose raw argument payload
fails to parse makes `callLlm` rethrow the `JSON.parse` error (the
streaming phase parses each `roll_dice` item's arguments with no
try/catch): the invocation ends in an exception and the transcript is
left exactly as it was received — no ToolResult failure is recorded.
(A call with any other name is never parsed, so it cannot throw.) -/
theorem c5_amended (rand : Nat → Nat) (backend : List PromptItem → List StreamEvent)
    (prompts : List PromptItem) (fuel : Nat) (item : ToolCallItem)
    (hmem : StreamEvent.outputItemDoneFunctionCall item ∈ backend prompts)
    (hname : item.name = "roll_dice") (hmal : item.arguments.isMalformed = true) :
    (callLlm rand backend (fuel + 1) prompts).isErr = true ∧
      (callLlm rand backend (fuel + 1) prompts).prompts = prompts := by
  obtain ⟨⟨msg, acc⟩, herr⟩ := processEvents_of_malformed hmem hname hmal ⟨[], []⟩
  simp only [callLlm]
  rw [herr]
  exact ⟨rfl, rfl⟩

/-- C5 witness: the malformed-payload backend at fuel 3. -/
theorem c5_witness :
    (callLlm (fun _ => 0) bkC5 3 []).isErr = true ∧
      (callLlm (fun _ => 0) bkC5 3 []).prompts = [] :=
  c5_amended (fun _ => 0) bkC5 [] 2 ⟨"i5", "c5", "roll_dice", .malformed "oops"⟩
    (by decide) (by decide) (by decide)

/-- Backend for the C6 counterexample: one completed call whose name
matches no registered tool. -/
def bkC6 : List PromptItem → List StreamEvent :=
  fun _ => [.outputItemDoneFunctionCall ⟨"i6", "c6", "lookup_weather", .wellFormed "x" ⟨none, none⟩⟩]

/-- C6 counterexample: the claim says a completed call with an
unregistered name becomes a ToolResult failure recorded in the
transcript; on this input the transcript handed to the next cycle is
still empty — the call produced no entry of any kind (and in
particular zero function_call_output entries). -/
theorem c6_counterexample :
    callLlm (fun _ => 0) bkC6 1 [] = .noFuel [] [] ∧
      countOutputs ((callLlm (fun _ => 0) bkC6 1 []).prompts) = 0 := by
  decide

/-- C6 amended: a completed call whose name is not `roll_dice` indeed
never escapes the loop as an exception — but it is not converted into a
recorded ToolResult failure either: the execution phase skips it,
leaving the transcript and the sink untouched (and the streaming phase
accepts such an item without parsing its arguments, only pushing it
onto `toolCalls`). -/
theorem c6_amended (rand : Nat → Nat) (prompts : List PromptItem)
    (sink : List SinkEvent) (calls : List ToolCallItem) (acc : StreamAcc)
    (item : ToolCallItem)
    (hcalls : ∀ c ∈ calls, c.name ≠ "roll_dice")
    (hitem : item.name ≠ "roll_dice") :
    executeCalls rand prompts sink calls = .ok (prompts, sink) ∧
      processEvent acc (.outputItemDoneFunctionCall item) =
        .ok ⟨acc.toolCalls ++ [item], acc.sink⟩ := by
  constructor
  · exact executeCalls_skip rand prompts sink calls hcalls
  · have hb : (item.name == "roll_dice") = false := by simp [hitem]
    simp [processEvent, hb]

/-- C6 witness: one unregistered-name call, concrete state. -/
theorem c6_witness :
    executeCalls (fun _ => 0) [] []
        [⟨"i6", "c6", "lookup_weather", RawArgs.wellFormed "x" ⟨none, none⟩⟩] =
      .ok ([], []) ∧
      processEvent ⟨[], []⟩
        (.outputItemDoneFunctionCall ⟨"i6", "c6", "lookup_weather", RawArgs.wellFormed "x" ⟨none, none⟩⟩) =
        .ok ⟨[⟨"i6", "c6", "lookup_weather", RawArgs.wellFormed "x" ⟨none, none⟩⟩], []⟩ :=
  c6_amended (fun _ => 0) [] [] _ ⟨[], []⟩ _ (by decide) (by decide)

/-- Backend for the C10 witness and counterexample-free confirmation:
two completed calls, neither named `roll_dice`. -/
def bkC10 : List PromptItem → List StreamEvent :=
  fun _ => [.outputItemDoneFunctionCall ⟨"ia", "ca", "get_time", .wellFormed "x" ⟨none, none⟩⟩,
            .outputItemDoneFunctionCall ⟨"ib", "cb", "get_news", .malformed "y"⟩]

/-- C10: if a cycle's stream completes with at least one collected tool
call and none of them is named `roll_dice`, the execution phase appends
nothing and emits nothing (none of the calls is executed), and the loop
still recurses: the `(fuel+1)`-bounded run equals the `fuel`-bounded run
re-entered on the *same* transcript (only the streaming phase's sink
output is prepended). -/
theorem c10_skipped_calls_still_recurse (rand : Nat → Nat)
    (backend : List PromptItem → List StreamEvent) (prompts : List PromptItem)
    (fuel : Nat) (acc : StreamAcc)
    (h1 : processEvents ⟨[], []⟩ (backend prompts) = .ok acc)
    (h2 : acc.toolCalls ≠ [])
    (h3 : ∀ c ∈ acc.toolCalls, c.name ≠ "roll_dice") :
    executeCalls rand prompts [] acc.toolCalls = .ok (prompts, []) ∧
      callLlm rand backend (fuel + 1) prompts =
        withSink acc.sink (callLlm rand backend fuel prompts) := by
  have hskip := executeCalls_skip rand prompts [] acc.toolCalls h3
  refine ⟨hskip, ?_⟩
  have hlen : acc.toolCalls.length > 0 := List.length_pos.mpr h2
  simp only [callLlm]
  rw [h1]
  simp only [hlen, if_true]
  rw [hskip]
  simp

/-- C10 witness: two non-`roll_dice` calls (the second one even
malformed — its arguments are never parsed), run at fuel 1. -/
theorem c10_witness :
    executeCalls (fun _ => 0) [] []
        [⟨"ia", "ca", "get_time", RawArgs.wellFormed "x" ⟨none, none⟩⟩,
         ⟨"ib", "cb", "get_news", RawArgs.malformed "y"⟩] =
      .ok ([], []) ∧
      callLlm (fun _ => 0) bkC10 1 [] =
        withSink [] (callLlm (fun _ => 0) bkC10 0 []) :=
  c10_skipped_calls_still_recurse (fun _ => 0) bkC10 [] 0
    ⟨[⟨"ia", "ca", "get_time", RawArgs.wellFormed "x" ⟨none, none⟩⟩,
      ⟨"ib", "cb", "get_news", RawArgs.malformed "y"⟩], []⟩
    (by decide) (by decide) (by decide)

/-- Backend for the C1 counterexample: one completed tool-call event,
named anything other than `roll_dice`. -/
def bkC1 : List PromptItem → List StreamEvent :=
  fun _ => [.outputItemDoneFunctionCall ⟨"i9", "c9", "get_weather", .wellFormed "w" ⟨none, none⟩⟩]

/-- C1 counterexample: the claim says a cycle with N completed
tool-call events hands the next streaming call a transcript with
exactly N new function_call/function_call_output pairs; on a stream
with N = 1 completed call named `get_weather` the loop recurses with
zero new pairs (the call is skipped, not executed). -/
theorem c1_counterexample :
    countToolCallEvents (bkC1 []) = 1 ∧
      countOutputs ((callLlm (fun _ => 0) bkC1 1 []).prompts) = 0 ∧
      countOutputs ((callLlm (fun _ => 0) bkC1 1 []).prompts) ≠
        countToolCallEvents (bkC1 []) := by
  decide

/-- C1 amended: for a cycle whose streaming phase completes with a
non-empty `toolCalls` batch, the whole batch is resolved by
`executeCalls` before the next streaming call is opened, and the
transcript handed to that next call is the received one extended by
exactly one function_call/function_call_output pair per *`roll_dice`*
call of the batch, in arrival order, each call entry immediately
followed by its result entry; calls with any other name contribute no
pair and are never executed.  The recursion equation shows the next
cycle starts only with this fully extended transcript. -/
theorem c1_amended (rand : Nat → Nat) (backend : List PromptItem → List StreamEvent)
    (prompts : List PromptItem) (fuel : Nat) (acc : StreamAcc)
    (h1 : processEvents ⟨[], []⟩ (backend prompts) = .ok acc)
    (h2 : acc.toolCalls ≠ []) :
    executeCalls rand prompts [] acc.toolCalls =
      .ok (prompts ++ acc.toolCalls.flatMap (execPair rand),
           acc.toolCalls.filterMap (execUpdate rand)) ∧
      acc.toolCalls.flatMap (execPair rand) =
        (acc.toolCalls.filter (fun c => c.name == "roll_dice")).flatMap
          (fun c => [PromptItem.functionCall c.id c.call_id "roll_dice" c.arguments,
                     PromptItem.functionCallOutput c.call_id
                       (rollDice rand (rawArgsView c.arguments))]) ∧
      callLlm rand backend (fuel + 1) prompts =
        withSink (acc.sink ++ acc.toolCalls.filterMap (execUpdate rand))
          (callLlm rand backend fuel (prompts ++ acc.toolCalls.flatMap (execPair rand))) := by
  have hwf := toolCalls_wellFormed h1
  have hexec : executeCalls rand prompts [] acc.toolCalls =
      .ok (prompts ++ acc.toolCalls.flatMap (execPair rand),
           acc.toolCalls.filterMap (execUpdate rand)) := by
    simpa using executeCalls_ok_shape rand acc.toolCalls prompts [] hwf
  refine ⟨hexec, execPair_flatMap_filter rand acc.toolCalls, ?_⟩
  have hlen : acc.toolCalls.length > 0 := List.length_pos.mpr h2
  simp only [callLlm]
  rw [h1]
  simp only [hlen, if_true]
  rw [hexec]

/-- Backend for the C1 witness: one well-formed `roll_dice` call
requesting 2d6. -/
def bkC1w : List PromptItem → List StreamEvent :=
  fun _ => [.outputItemDoneFunctionCall ⟨"i1", "cid1", "roll_dice", .wellFormed "a" ⟨some 6, some 2⟩⟩]

/-- C1 witness: the single `roll_dice` call is executed and yields its
call/result pair and its completion update. -/
theorem c1_witness :
    executeCalls (fun _ => 0) [] []
        [⟨"i1", "cid1", "roll_dice", RawArgs.wellFormed "a" ⟨some 6, some 2⟩⟩] =
      .ok ([PromptItem.functionCall "i1" "cid1" "roll_dice"
              (RawArgs.wellFormed "a" ⟨some 6, some 2⟩),
            PromptItem.functionCallOutput "cid1"
              ⟨none, [1, 1], 2, some "Rolled a 2d6 to total 2"⟩],
           [SinkEvent.taskUpdate "cid1" "Rolled a 2d6 to total 2" "complete"]) :=
  have h := (c1_amended (fun _ => 0) bkC1w [] 0
    ⟨[⟨"i1", "cid1", "roll_dice", RawArgs.wellFormed "a" ⟨some 6, some 2⟩⟩],
     [SinkEvent.taskUpdate "cid1" "Rolling a 2d6..." "in_progress"]⟩
    (by decide) (by decide)).1
  h.trans (by decide)

/-- Backend for the C8 counterexample: one completed tool-call event
with an unregistered name. -/
def bkC8 : List PromptItem → List StreamEvent :=
  fun _ => [.outputItemDoneFunctionCall ⟨"i8", "c8", "fetch_page", .wellFormed "u" ⟨none, none⟩⟩]

/-- C8 counterexample: the claim says every tool-call-completed event
gets an in_progress status update keyed by its call id during
streaming, and a second one after execution; on a stream with one
completed call named `fetch_page` the loop emits no sink event at
all. -/
theorem c8_counterexample :
    countToolCallEvents (bkC8 []) = 1 ∧
      (callLlm (fun _ => 0) bkC8 1 []).sink = [] := by
  decide

/-- C8 amended: for every completed call named `roll_dice` in a cycle
whose stream completes: (a) an in_progress task update keyed by its
call id is emitted during the streaming phase; (b) the cycle's sink
output is the whole streaming-phase output followed by the
execution-phase updates, so every tool execution (and its update)
happens only after the stream has ended; (c) the post-execution update
for that call id carries status `complete` when the roll has no error
and `error` (titled with the error text) when it does.  Calls with any
other name receive no status updates at all. -/
theorem c8_amended (rand : Nat → Nat) (backend : List PromptItem → List StreamEvent)
    (prompts : List PromptItem) (acc : StreamAcc)
    (h1 : processEvents ⟨[], []⟩ (backend prompts) = .ok acc)
    (h2 : acc.toolCalls ≠ []) :
    (∀ c ∈ acc.toolCalls, c.name = "roll_dice" →
      SinkEvent.taskUpdate c.call_id (rollingTitle (rawArgsView c.arguments)) "in_progress"
        ∈ acc.sink) ∧
      (callLlm rand backend 1 prompts).sink =
        acc.sink ++ acc.toolCalls.filterMap (execUpdate rand) ∧
      (∀ c ∈ acc.toolCalls, c.name = "roll_dice" →
        ((rollDice rand (rawArgsView c.arguments)).error = none →
          execUpdate rand c = some (.taskUpdate c.call_id
            ((rollDice rand (rawArgsView c.arguments)).description.getD "undefined")
            "complete")) ∧
        (∀ e, (rollDice rand (rawArgsView c.arguments)).error = some e →
          execUpdate rand c = some (.taskUpdate c.call_id e "error"))) := by
  obtain ⟨ht, hs⟩ := processEvents_ok_shape h1
  refine ⟨?_, ?_, ?_⟩
  · intro c hc hname
    rw [ht] at hc
    rw [hs]
    simp only [List.nil_append] at hc ⊢
    exact inProgress_of_toolCall hc hname
  · have hwf := toolCalls_wellFormed h1
    have hexec : executeCalls rand prompts [] acc.toolCalls =
        .ok (prompts ++ acc.toolCalls.flatMap (execPair rand),
             acc.toolCalls.filterMap (execUpdate rand)) := by
      simpa using executeCalls_ok_shape rand acc.toolCalls prompts [] hwf
    have hlen : acc.toolCalls.length > 0 := List.length_pos.mpr h2
    show (callLlm rand backend (0 + 1) prompts).sink = _
    simp only [callLlm]
    rw [h1]
    simp only [hlen, if_true]
    rw [hexec, withSink_sink]
    simp [callLlm, StepResult.sink]
  · intro c hc hname
    have hb : (c.name == "roll_dice") = true := by simp [hname]
    constructor
    · intro herr
      simp [execUpdate, hb, herr]
    · intro e herr
      simp [execUpdate, hb, herr]

/-- Backend for the C8 witness: one well-formed `roll_dice` call
requesting 1d6. -/
def bkC8w : List PromptItem → List StreamEvent :=
  fun _ => [.outputItemDoneFunctionCall ⟨"i8w", "cid8", "roll_dice", .wellFormed "b" ⟨some 6, some 1⟩⟩]

/-- C8 witness: the in_progress update precedes the complete update of
the same call id in the cycle's sink output. -/
theorem c8_witness :
    SinkEvent.taskUpdate "cid8" "Rolling a 1d6..." "in_progress" ∈
        [SinkEvent.taskUpdate "cid8" "Rolling a 1d6..." "in_progress"] ∧
      (callLlm (fun _ => 0) bkC8w 1 []).sink =
        [SinkEvent.taskUpdate "cid8" "Rolling a 1d6..." "in_progress",
         SinkEvent.taskUpdate "cid8" "Rolled a 1d6 to total 1" "complete"] :=
  have h := c8_amended (fun _ => 0) bkC8w []
    ⟨[⟨"i8w", "cid8", "roll_dice", RawArgs.wellFormed "b" ⟨some 6, some 1⟩⟩],
     [SinkEvent.taskUpdate "cid8" "Rolling a 1d6..." "in_progress"]⟩
    (by decide) (by decide)
  ⟨h.1 ⟨"i8w", "cid8", "roll_dice", RawArgs.wellFormed "b" ⟨some 6, some 1⟩⟩
      (by decide) (by decide),
    h.2.1.trans (by decide)⟩
